import Mathlib

/-!
Verification of the `source_splitter` repository against its specification.

The development shallowly embeds the repository's Python code:

* `TSNode` models a tree-sitter syntax node (`type`, `start_byte`, `end_byte`,
  children); byte ranges are half-open, as in tree-sitter.
* `get_nodes`, `sort_nodes`, `is_inside`, `extract_nodes` embed the
  corresponding methods of `SSSourceFile` (src/source_splitter/ss_sourcefile.py).
* The capability-layer `parse` methods of `SSSourceFile`,
  `SSFunctionLanguageSourceFile`, `SSClassLanguageSourceFile`,
  `SSInterfaceLanguageSourceFile` are embedded as state transformers over
  `SState`; each returns the number of classifier/partitioner invocations it
  performed, so that "no re-classification" is expressible.
* The file splitters (ss_filesplitters.py), the language dispatch
  (ss_languages.py) and the batch driver (__main__.py) are embedded with an
  explicit association-list file system and an error type for the Python
  exceptions involved.
-/

namespace SourceSplitter

/-- A tree-sitter syntax node: type tag, half-open byte range, children.
The external parser guarantees ranges of children are inside the parent. -/
inductive TSNode where
  | node (ty : String) (s : Nat) (e : Nat) (children : List TSNode)

@[simp]
def TSNode.type : TSNode → String
  | .node t _ _ _ => t

@[simp]
def TSNode.start_byte : TSNode → Nat
  | .node _ s _ _ => s

@[simp]
def TSNode.end_byte : TSNode → Nat
  | .node _ _ e _ => e

@[simp]
def TSNode.children : TSNode → List TSNode
  | .node _ _ _ cs => cs

/-- Node-type sets from ss_items.py (set literals, embedded as lists). -/
def TS_COMMENT_NODE_TYPES : List String := ["comment", "comment_block", "comment_line"]

def TS_IMPORT_NODE_TYPES : List String :=
  ["import", "import_statement", "import_statement_block", "import_from_statement"]

def TS_LITERAL_NODE_TYPES : List String :=
  ["assignment", "string_literal", "numeric_literal", "const", "let"]

def TS_FUNCTION_NODE_TYPES : List String := ["function_definition", "function_declaration"]

def TS_METHOD_NODE_TYPES : List String := ["method_definition"]

def TS_CLASS_NODE_TYPES : List String := ["class_definition", "class_declaration"]

def TS_INTERFACE_NODE_TYPES : List String := ["interface_definition"]

mutual
/-- The `_walk_tree` closure of `SSSourceFile.get_nodes`: if the node's type is
in `names` it is recorded, and when `first_occurrence` is true the walk does
not descend into the matched node's subtree; otherwise it descends further. -/
def walkNode (names : List String) (first_occurrence : Bool) : TSNode → List TSNode
  | .node t s e cs =>
    if names.contains t then
      TSNode.node t s e cs ::
        (if first_occurrence then [] else walkForest names first_occurrence cs)
    else walkForest names first_occurrence cs

/-- `get_nodes` runs `_walk_tree` on each child of the start node in order. -/
def walkForest (names : List String) (first_occurrence : Bool) : List TSNode → List TSNode
  | [] => []
  | c :: cs => walkNode names first_occurrence c ++ walkForest names first_occurrence cs
end

/-- Insertion step of a stable sort keyed by `start_byte` (Python `list.sort`
with `key=lambda node: node.start_byte` is a stable ascending sort). -/
def insertNode (x : TSNode) : List TSNode → List TSNode
  | [] => [x]
  | y :: ys =>
    if x.start_byte ≤ y.start_byte then x :: y :: ys else y :: insertNode x ys

/-- `SSSourceFile.sort_nodes`: stable ascending sort by `start_byte`. -/
def sort_nodes : List TSNode → List TSNode
  | [] => []
  | x :: xs => insertNode x (sort_nodes xs)

/-- `SSSourceFile.get_nodes`: walk every child of `start_node`, then sort. -/
def get_nodes (names : List String) (start_node : TSNode)
    (first_occurrence : Bool := true) : List TSNode :=
  sort_nodes (walkForest names first_occurrence start_node.children)

/-- `SSSourceFile.is_inside`: containment of half-open ranges, with both
endpoints compared inclusively. -/
def is_inside (inner_node outer_node : TSNode) : Bool :=
  decide (inner_node.start_byte ≥ outer_node.start_byte) &&
    decide (inner_node.end_byte ≤ outer_node.end_byte)

/-- `SSSourceFile.extract_nodes`: two-pointer sweep splitting `child_nodes`
into those inside the current parent (first component) and the rest (second
component); leftover children after the parents are exhausted go to the
second component. -/
def extract_nodes (child_nodes parent_nodes : List TSNode) :
    List TSNode × List TSNode :=
  match child_nodes, parent_nodes with
  | [], _ => ([], [])
  | cs, [] => ([], cs)
  | c :: cs, p :: ps =>
    if is_inside c p then
      let r := extract_nodes cs (p :: ps)
      (c :: r.1, r.2)
    else if c.start_byte > p.end_byte then
      extract_nodes (c :: cs) ps
    else
      let r := extract_nodes cs (p :: ps)
      (r.1, c :: r.2)
termination_by child_nodes.length + parent_nodes.length

/-! ### Ordering and well-formedness notions -/

/-- Ordered disjointness of half-open byte ranges: `a` ends before `b` starts. -/
def sepLE (a b : TSNode) : Prop := a.end_byte ≤ b.start_byte

/-- Ascending start bytes. -/
def startLE (a b : TSNode) : Prop := a.start_byte ≤ b.start_byte

/-- Symmetric disjointness: the two half-open ranges share no byte. -/
def nodesDisjoint (a b : TSNode) : Prop :=
  a.end_byte ≤ b.start_byte ∨ b.end_byte ≤ a.start_byte

/-- The invariant the spec asserts of every unit category list: sorted
ascending by start byte and pairwise non-overlapping. -/
def catInv (l : List TSNode) : Prop := l.Pairwise startLE ∧ l.Pairwise nodesDisjoint

/-- Every node of `cs` lies within the byte range `[s, e)`. -/
def forestInRange (s e : Nat) (cs : List TSNode) : Bool :=
  cs.all fun c => decide (s ≤ c.start_byte) && decide (c.end_byte ≤ e)

/-- Sibling lists occupy ordered pairwise disjoint half-open ranges. -/
def forestOrdered : List TSNode → Bool
  | [] => true
  | c :: cs => (cs.all fun d => decide (c.end_byte ≤ d.start_byte)) && forestOrdered cs

mutual
/-- Well-formedness of a syntax node as delivered by the external parser:
proper range, children inside the parent's range, siblings ordered and
disjoint, children recursively well-formed. -/
def nodeWF : TSNode → Bool
  | .node _ s e cs =>
    decide (s ≤ e) && forestInRange s e cs && forestOrdered cs && forestWF cs

def forestWF : List TSNode → Bool
  | [] => true
  | c :: cs => nodeWF c && forestWF cs
end

/-- A candidate is fully inside some node of `ps`. -/
def insideSome (ps : List TSNode) (c : TSNode) : Bool :=
  ps.any fun p => is_inside c p

/-- Strict separation of successive containers (the ranges do not even touch
when the end byte is read inclusively). -/
def sepLT (a b : TSNode) : Prop := a.end_byte < b.start_byte

/-! ### Layered parse pipeline (ss_sourcefile.py)

The classification state of a source unit holds one list per unit category.
Each layer's `parse` is embedded as a state transformer taking the root node
delivered by the external parser; the second component of the result counts
the classifier (`get_nodes`) and partitioner (`extract_nodes`) invocations
performed, so that "no re-classification on re-entry" is observable. -/

structure SState where
  imports : List TSNode
  literals : List TSNode
  comments : List TSNode
  functions : List TSNode
  subfunctions : List TSNode
  classes : List TSNode
  methods : List TSNode
  interfaces : List TSNode

/-- The state set up by the constructors before any parsing: every category
list is empty. -/
def initialState : SState := ⟨[], [], [], [], [], [], [], []⟩

/-- The classification part of `SSSourceFile.parse`: imports, literals and
comments are collected with `first_occurrence = True` (the third positional
argument at all three call sites). -/
def SSSourceFile_parse (root : TSNode) (st : SState) : SState × Nat :=
  ({ st with
      imports := get_nodes TS_IMPORT_NODE_TYPES root true
      literals := get_nodes TS_LITERAL_NODE_TYPES root true
      comments := get_nodes TS_COMMENT_NODE_TYPES root true }, 3)

/-- `SSFunctionLanguageSourceFile.parse`: early return when `self.functions`
or `self.subfunctions` is non-empty; otherwise run the base parse, collect
functions (default `first_occurrence = True`), collect the per-function
subfunction lists, and refine literals through `extract_nodes`. -/
def SSFunctionLanguageSourceFile_parse (root : TSNode) (st : SState) :
    SState × Nat :=
  if !st.functions.isEmpty || !st.subfunctions.isEmpty then (st, 0)
  else
    let r1 := SSSourceFile_parse root st
    let functions := get_nodes TS_FUNCTION_NODE_TYPES root true
    let subfunctions :=
      r1.1.subfunctions ++
        functions.flatMap fun f => get_nodes TS_FUNCTION_NODE_TYPES f true
    let r2 := extract_nodes r1.1.literals functions
    ({ r1.1 with
        functions := functions
        subfunctions := subfunctions
        literals := r2.2 },
     r1.2 + 1 + functions.length + 1)

/-- `SSClassLanguageSourceFile.parse`: early return when `self.methods` or
`self.classes` is non-empty; otherwise run the function-layer parse, collect
classes and methods, derive methods from functions when the language has no
method node type, and refine literals through `extract_nodes`. -/
def SSClassLanguageSourceFile_parse (root : TSNode) (st : SState) :
    SState × Nat :=
  if !st.methods.isEmpty || !st.classes.isEmpty then (st, 0)
  else
    let r1 := SSFunctionLanguageSourceFile_parse root st
    let classes := get_nodes TS_CLASS_NODE_TYPES root true
    let methods := get_nodes TS_METHOD_NODE_TYPES root true
    let r2 :=
      if methods.isEmpty then
        let e := extract_nodes r1.1.functions classes
        ({ r1.1 with classes := classes, methods := e.1, functions := e.2 },
         r1.2 + 2 + 1)
      else ({ r1.1 with classes := classes, methods := methods }, r1.2 + 2)
    let e2 := extract_nodes r2.1.literals classes
    ({ r2.1 with literals := e2.2 }, r2.2 + 1)

/-- `SSInterfaceLanguageSourceFile.parse`: early return when
`self.interfaces` is non-empty; otherwise run the class-layer parse and
collect interfaces. -/
def SSInterfaceLanguageSourceFile_parse (root : TSNode) (st : SState) :
    SState × Nat :=
  if !st.interfaces.isEmpty then (st, 0)
  else
    let r1 := SSClassLanguageSourceFile_parse root st
    ({ r1.1 with interfaces := get_nodes TS_INTERFACE_NODE_TYPES root true },
     r1.2 + 1)

/-! ### Python comment extraction (ss_languages.py)

`SSPythonSourceFile._extract_comments` collects the `"string"` nodes with
`get_nodes({"string"}, self.tree_root, True)` and appends to `self.comments`
those whose parent node is an `expression_statement`. The walk below is the
same first-occurrence traversal, additionally recording each matched node's
parent type so that the parent check is expressible. -/

mutual
def walkNodeParent (names : List String) (parent_ty : String) :
    TSNode → List (TSNode × String)
  | .node t s e cs =>
    if names.contains t then [(TSNode.node t s e cs, parent_ty)]
    else walkForestParent names t cs

def walkForestParent (names : List String) (parent_ty : String) :
    List TSNode → List (TSNode × String)
  | [] => []
  | c :: cs =>
    walkNodeParent names parent_ty c ++ walkForestParent names parent_ty cs
end

def insertPair (x : TSNode × String) :
    List (TSNode × String) → List (TSNode × String)
  | [] => [x]
  | y :: ys =>
    if x.1.start_byte ≤ y.1.start_byte then x :: y :: ys else y :: insertPair x ys

def sortPairs : List (TSNode × String) → List (TSNode × String)
  | [] => []
  | x :: xs => insertPair x (sortPairs xs)

/-- `SSPythonSourceFile._extract_comments`: the selected string nodes are
appended at the end of the already-populated comments list, with no re-sort
of the combined list. -/
def SSPythonSourceFile_extract_comments (root : TSNode)
    (comments : List TSNode) : List TSNode :=
  let stmt_strs := sortPairs (walkForestParent ["string"] root.type root.children)
  comments ++
    (stmt_strs.filter fun pr => pr.2 == "expression_statement").map Prod.fst

/-- `SSPythonSourceFile.__init__`: the inherited constructor chain runs the
class-layer parse on a fresh state, then `_extract_comments` runs. -/
def SSPythonSourceFile_init (root : TSNode) : SState × Nat :=
  let r := SSClassLanguageSourceFile_parse root initialState
  ({ r.1 with
      comments := SSPythonSourceFile_extract_comments root r.1.comments },
   r.2 + 1)


/-! ### Language registry and dispatch (ss_items.py, ss_languages.py) -/

/-- `SSLanguageMappings`: language → (extension set, optional alternate
language), in the dictionary's insertion order. -/
def SSLanguageMappings : List (String × List String × Option String) :=
  [("python", [".py"], none),
   ("javascript", [".js", ".jsx"], none),
   ("c", [".c", ".h"], none),
   ("cpp", [".cpp", ".h", ".hpp"], some "c"),
   ("java", [".java"], none),
   ("typescript", [".ts", ".tsx"], some "javascript")]

/-- The inner `get_key_from_value` of `get_class_for_file`: the first
language whose extension set contains the given suffix. -/
def get_key_from_value (value : Option String) : Option String :=
  match value with
  | none => none
  | some v =>
    (SSLanguageMappings.find? fun entry => entry.2.1.contains v).map Prod.fst

/-- The keys of `SSSFClassMappings`: every language with a registered
concrete source-file class. -/
def SSSFClassMappings_keys : List String :=
  ["c", "cpp", "java", "javascript", "python", "typescript"]

/-- `(SSLanguageMappings[language])[1]`: the alternate language, if any. -/
def alternate_of (language : String) : Option String :=
  match SSLanguageMappings.find? fun entry => entry.1 == language with
  | some entry => entry.2.2
  | none => none

/-- The Python exceptions that can cross the functions modelled here. -/
inductive PyErr where
  | noLanguageFound
  | parseFailed (language : String)
  | osError
  | valueError
  | attributeError
deriving DecidableEq

/-- `SSLanguageMappings[language]`: the (extensions, alternate) pair. The
default branch is unreachable for the six registered class language tags. -/
def language_entry (language : String) : List String × Option String :=
  match SSLanguageMappings.find? fun entry => entry.1 == language with
  | some entry => entry.2
  | none => ([], none)

/-- The second suffix test of `SSSourceFile.parse`:
`self.filename.suffix not in SSLanguageMappings[alternate_language]` indexes
the whole (extensions, alternate) TUPLE — the `[0]` is missing — so Python
tests the suffix for equality against the extension-set object (never equal:
different types) and against the alternate tag (a language name, never a
dot-suffix), not for membership in the extension set. -/
def suffix_in_mapping_tuple (suffix : String)
    (entry : List String × Option String) : Bool :=
  match entry.2 with
  | some alternate => suffix == alternate
  | none => false

/-- `SSSourceFile.parse` as run by a concrete class constructor
(`SSSFClassMappings[language](filename)`), up to classification: the suffix
re-check of ss_sourcefile.py lines 82-86 runs before any parsing. If the
suffix is not in the class language's own extension set, a `ValueError` is
raised unless the language names an alternate whose mapping tuple "contains"
the suffix (see `suffix_in_mapping_tuple`); only when the check passes does
the external parser run (the oracle `parse_ok`), and a parser failure raises
`SSParseFailed`. A successful run yields a unit tagged with the class's
language. -/
def SSSourceFile_parse_construct (parse_ok : String → Bool) (suffix : String)
    (language : String) : Except PyErr String :=
  let entry := language_entry language
  if entry.1.contains suffix then
    if parse_ok language then .ok language
    else .error (.parseFailed language)
  else
    match entry.2 with
    | none => .error .valueError
    | some alternate_language =>
      if suffix_in_mapping_tuple suffix (language_entry alternate_language) then
        if parse_ok language then .ok language
        else .error (.parseFailed language)
      else .error .valueError

/-- `get_class_for_file` (ss_languages.py). The primary construction runs
`SSSourceFile.parse` under the class's fixed language. Only `SSParseFailed`
is caught; when an alternate language exists, the alternate class is
constructed inside an inner `try` whose `except` clause likewise catches
only `SSParseFailed` — any other exception from the fallback construction
(in particular the `ValueError` of the suffix re-check) escapes. If the
inner construction completes, execution falls out of the inner `try` and
still reaches the unconditional `raise e`. -/
def get_class_for_file (parse_ok : String → Bool) (suffix : Option String) :
    Except PyErr String :=
  match suffix with
  | none => .error .noLanguageFound
  | some sfx =>
    match get_key_from_value (some sfx) with
    | none => .error .noLanguageFound
    | some language =>
      if SSSFClassMappings_keys.contains language then
        match SSSourceFile_parse_construct parse_ok sfx language with
        | .ok lang => .ok lang
        | .error (.parseFailed l) =>
          match alternate_of language with
          | some alternate_language =>
            match SSSourceFile_parse_construct parse_ok sfx
                alternate_language with
            | .ok _ => .error (.parseFailed l)
            | .error (.parseFailed _) => .error (.parseFailed l)
            | .error other => .error other
          | none => .error (.parseFailed l)
        | .error other => .error other
      else .error .noLanguageFound

/-! ### File splitters (ss_filesplitters.py) -/

/-- The file system visible to the splitter: path → content; a write
prepends, shadowing any previous entry for the path. -/
abbrev FileSys := List (String × String)

def fsWrite (fs : FileSys) (path content : String) : FileSys :=
  (path, content) :: fs

def fsRead (fs : FileSys) (path : String) : Option String :=
  (List.find? (fun pr => pr.1 == path) fs).map Prod.snd

def fsExists (fs : FileSys) (path : String) : Bool :=
  (fsRead fs path).isSome

/-- The source-file attributes the splitter reads (`self._sf`). -/
structure PySF where
  source_code : String
  basename : String
  filename_suffix : String
  import_format : String
  import_directory_specifier : String
  import_suffix : String

/-- `SSSourceFile.print_source`: the slice `[start_byte, end_byte)` of the
source text (the model identifies bytes with characters). -/
def print_source (sf : PySF) (node : TSNode) : String :=
  ((sf.source_code.toList.drop node.start_byte).take
    (node.end_byte - node.start_byte)).asString

/-- `SSSourceFile.get_node_name`: the text of the node's first child, if the
node has children. -/
def get_node_name (sf : PySF) (node : TSNode) : Option String :=
  match node.children with
  | [] => none
  | c :: _ => some (print_source sf c)

/-- Target path of one item write in `_write_item_file`. In flat mode the
source builds a relative path not joined to the destination directory. -/
def real_file_path (sf : PySF) (dest : String) (use_subdirectories : Bool)
    (node_name : String) : String :=
  if use_subdirectories then
    dest ++ "/" ++ sf.basename ++ "/" ++ node_name ++ sf.filename_suffix
  else sf.basename ++ "/_" ++ node_name ++ sf.filename_suffix

/-- Relative path appended to the import list for one written item. -/
def append_file_path (sf : PySF) (use_subdirectories : Bool)
    (node_name : String) : String :=
  if use_subdirectories then sf.basename ++ "/" ++ node_name else node_name

/-- `SSFileSplitter._write_item_file`. Role files (`item_name` given) are
written with `write_text`, unconditionally overwriting; named-unit files go
through `_write_if_not_exists`, whose `ValueError` on an existing path
propagates, ending the loop and the whole split. The `None` error component
means the loop completed. -/
def write_item_file (sf : PySF) (dest : Option String)
    (use_subdirectories : Bool) (items : List TSNode)
    (item_name : Option String) (fs : FileSys) (import_list : List String) :
    FileSys × List String × Option PyErr :=
  match dest with
  | none => (fs, import_list, some .valueError)
  | some d =>
    match items with
    | [] => (fs, import_list, none)
    | item :: rest =>
      match item_name.or (get_node_name sf item) with
      | none => (fs, import_list, some .valueError)
      | some node_name =>
        let real_file_name := real_file_path sf d use_subdirectories node_name
        let append_file_name := append_file_path sf use_subdirectories node_name
        let source := print_source sf item
        match item_name with
        | none =>
          if fsExists fs real_file_name then (fs, import_list, some .valueError)
          else
            write_item_file sf dest use_subdirectories rest item_name
              (fsWrite fs real_file_name source)
              (import_list ++ [append_file_name])
        | some _ =>
          write_item_file sf dest use_subdirectories rest item_name
            (fsWrite fs real_file_name source)
            (import_list ++ [append_file_name])

/-- Python `str.format(filename=arg)`: every `{filename}` field in the
template is replaced by `arg`; templates without that field (such as the
`%s`-style ones set by the Python and C++ classes) are returned unchanged. -/
def pyFormatChars (arg : List Char) : List Char → List Char
  | [] => []
  | '\x7b' :: 'f' :: 'i' :: 'l' :: 'e' :: 'n' :: 'a' :: 'm' :: 'e' :: '\x7d' :: rest =>
    arg ++ pyFormatChars arg rest
  | c :: cs => c :: pyFormatChars arg cs

def pyFormatFilename (template arg : String) : String :=
  (pyFormatChars arg.toList template.toList).asString

/-- The loop body of `_write_main_import_file`: each iteration pops the next
path, renders the import statement for it, and overwrites the whole
aggregator file with just that statement. The two `str.replace` calls in the
source (`import_text.replace("/", ...)` and
`import_text.replace(suffix, ...)`) discard their results — `str.replace`
returns a new string which is never assigned — so no separator or suffix
rewriting reaches the file. -/
def write_main_loop (sf : PySF) (main_file : String) :
    List String → FileSys → FileSys
  | [], fs => fs
  | real_import_file :: rest, fs =>
    let import_text := pyFormatFilename sf.import_format real_import_file
    write_main_loop sf main_file rest (fsWrite fs main_file import_text)

/-- `SSFileSplitter._write_main_import_file`: raises when `main_file` is
unset, otherwise drains the whole import list through the loop above. -/
def write_main_import_file (sf : PySF) (main_file : Option String)
    (import_list : List String) (fs : FileSys) :
    FileSys × List String × Option PyErr :=
  match main_file with
  | none => (fs, import_list, some .valueError)
  | some mf => (write_main_loop sf mf import_list fs, [], none)

/-- `SSFileSplitter.split_file`: imports aggregate, literals aggregate, then
the main import file; an exception in an earlier step propagates before the
later steps run. -/
def SSFileSplitter_split_file (sf : PySF) (st : SState) (dest : Option String)
    (use_subdirectories : Bool) (main_file : Option String) (fs : FileSys)
    (import_list : List String) : FileSys × List String × Option PyErr :=
  let r1 := write_item_file sf dest use_subdirectories st.imports
    (some "imports") fs import_list
  match r1.2.2 with
  | some _ => r1
  | none =>
    let r2 := write_item_file sf dest use_subdirectories st.literals
      (some "literals") r1.1 r1.2.1
    match r2.2.2 with
    | some _ => r2
    | none => write_main_import_file sf main_file r2.2.1 r2.1

/-- `SSFunctionFileSplitter.split_file`: the base split, one file per
function node, then the aggregator again. -/
def SSFunctionFileSplitter_split_file (sf : PySF) (st : SState)
    (dest : Option String) (use_subdirectories : Bool)
    (main_file : Option String) (fs : FileSys) (import_list : List String) :
    FileSys × List String × Option PyErr :=
  let r1 := SSFileSplitter_split_file sf st dest use_subdirectories main_file
    fs import_list
  match r1.2.2 with
  | some _ => r1
  | none =>
    let r2 := write_item_file sf dest use_subdirectories st.functions none
      r1.1 r1.2.1
    match r2.2.2 with
    | some _ => r2
    | none => write_main_import_file sf main_file r2.2.1 r2.1

/-- The items written by the final step of
`SSInterfaceFileSplitter.split_file`: the source writes `self._sfi.classes`,
not the interfaces list. -/
def SSInterfaceFileSplitter_final_items (st : SState) : List TSNode :=
  st.classes

/-! ### Splitter construction and dispatch -/

/-- The layer of a concrete source-file class. Every concrete class of
ss_languages.py derives from `SSFunctionLanguageSourceFile`; the
class-bearing ones also derive from `SSClassLanguageSourceFile`, and the
interface-bearing ones further from `SSInterfaceLanguageSourceFile`. -/
inductive SFLayer where
  | functionLayer
  | classLayer
  | interfaceLayer
deriving DecidableEq

/-- `isinstance(source_file, SSFunctionLanguageSourceFile)`: true for every
concrete source-file class. -/
def isinstance_function_language (_l : SFLayer) : Bool := true

/-- `isinstance(source_file, SSClassLanguageSourceFile)`. -/
def isinstance_class_language : SFLayer → Bool
  | .functionLayer => false
  | _ => true

/-- `isinstance(source_file, SSInterfaceLanguageSourceFile)`. -/
def isinstance_interface_language : SFLayer → Bool
  | .interfaceLayer => true
  | _ => false

inductive SplitterKind where
  | functionSplitter
  | classSplitter
  | interfaceSplitter
deriving DecidableEq

/-- A Python attribute read on an attribute no statement has assigned yet:
there is no value, and the interpreter raises `AttributeError`. -/
def unassigned_attribute : Option SFLayer := none

/-- `SSFunctionFileSplitter.__init__` evaluates `self._sf` in
`super().__init__(self._sf, destination_directory)` before `self._sf` is
ever assigned (`self._sff = source_file` runs only afterwards), so the
evaluation raises `AttributeError` and the passed `source_file` is unused at
that point. -/
def SSFunctionFileSplitter_init (_source_file : SFLayer) :
    Except PyErr SplitterKind :=
  match unassigned_attribute with
  | none => .error .attributeError
  | some _ => .ok .functionSplitter

/-- `SSClassFileSplitter.__init__` evaluates `self._sff` (unassigned) in the
same way. -/
def SSClassFileSplitter_init (_source_file : SFLayer) :
    Except PyErr SplitterKind :=
  match unassigned_attribute with
  | none => .error .attributeError
  | some _ => .ok .classSplitter

/-- `SSInterfaceFileSplitter.__init__` evaluates `self._sfc` (unassigned). -/
def SSInterfaceFileSplitter_init (_source_file : SFLayer) :
    Except PyErr SplitterKind :=
  match unassigned_attribute with
  | none => .error .attributeError
  | some _ => .ok .interfaceSplitter

/-- `get_file_splitter` (ss_filesplitters.py): `isinstance` tests in source
order, most general class first. -/
def get_file_splitter (source_file : SFLayer) : Except PyErr SplitterKind :=
  if isinstance_function_language source_file then
    SSFunctionFileSplitter_init source_file
  else if isinstance_class_language source_file then
    SSClassFileSplitter_init source_file
  else if isinstance_interface_language source_file then
    SSInterfaceFileSplitter_init source_file
  else .error .noLanguageFound

/-! ### Batch driver (__main__.py) -/

/-- The exception classes named by the `except` clauses of `process_file`:
`OSError`, `SSNoLanguageFound`, `SSParseFailed`. -/
def caught_by_process_file : PyErr → Bool
  | .osError => true
  | .noLanguageFound => true
  | .parseFailed _ => true
  | _ => false

/-- The body of the `try` block of `process_file`: language dispatch and
splitter construction (`splitter.split_file()` is never reached when
construction raises). `layer_of` maps a language tag to the layer of its
concrete class. -/
def per_file_pipeline (parse_ok : String → Bool) (suffix : Option String)
    (layer_of : String → SFLayer) : Except PyErr SplitterKind :=
  match get_class_for_file parse_ok suffix with
  | .error e => .error e
  | .ok language => get_file_splitter (layer_of language)

/-- `process_file`: run the pipeline and catch exactly the three listed
exception classes; anything else propagates to the caller. -/
def process_file (parse_ok : String → Bool) (suffix : Option String)
    (layer_of : String → SFLayer) : Except PyErr Unit :=
  match per_file_pipeline parse_ok suffix layer_of with
  | .ok _ => .ok ()
  | .error e => if caught_by_process_file e then .ok () else .error e

/-- Layer of each registered language's concrete class (ss_languages.py). -/
def layer_of_language : String → SFLayer
  | "c" => .functionLayer
  | "java" => .interfaceLayer
  | "typescript" => .interfaceLayer
  | _ => .classLayer

/-- Characterization of a stop-at-first classification result `l` for
`names` over the children of `root`: only matching nodes are collected,
every matching node anywhere in the tree — nested matches included — lies
inside some collected node, and no two collected nodes overlap (hence no
collected node is nested inside another collected node). -/
def stopFirstChar (names : List String) (root : TSNode)
    (l : List TSNode) : Prop :=
  (∀ x ∈ l, x.type ∈ names) ∧
  (∀ x ∈ walkForest names false root.children,
    ∃ y ∈ l, is_inside x y = true) ∧
  l.Pairwise nodesDisjoint

/-! ### Decidability instances and concrete fixtures -/

instance : DecidableRel startLE := fun a b => by
  unfold startLE; infer_instance

instance : DecidableRel sepLE := fun a b => by
  unfold sepLE; infer_instance

instance : DecidableRel sepLT := fun a b => by
  unfold sepLT; infer_instance

instance : DecidableRel nodesDisjoint := fun a b => by
  unfold nodesDisjoint; infer_instance

instance (l : List TSNode) : Decidable (catInv l) := by
  unfold catInv; infer_instance

/-- A state with every category list non-empty, as after a full parse. -/
def populatedState : SState :=
  ⟨[.node "import_statement" 0 1 []], [.node "string_literal" 2 3 []],
   [.node "comment" 4 5 []], [.node "function_definition" 6 7 []],
   [.node "function_definition" 8 9 []], [.node "class_definition" 10 11 []],
   [.node "method_definition" 12 13 []], [.node "interface_definition" 14 15 []]⟩

/-- A state distinguishing the classes and interfaces lists. -/
def interfaceDemoState : SState :=
  { populatedState with
      classes := [.node "class_definition" 10 11 []]
      interfaces := [.node "interface_definition" 14 15 []] }

/-- C1 counterexample input: two containers that are sorted and share no
byte (the ranges are half-open), and one candidate fully inside the second
container whose start byte equals the first container's end byte. -/
def c1Cands : List TSNode := [.node "function_definition" 20 25 []]

def c1Conts : List TSNode :=
  [.node "class_definition" 10 20 [], .node "class_definition" 20 30 []]

/-- C1 witness input: containers strictly separated. -/
def w1Cands : List TSNode :=
  [.node "function_definition" 5 8 [], .node "function_definition" 21 25 [],
   .node "function_definition" 40 45 []]

def w1Conts : List TSNode :=
  [.node "class_definition" 10 18 [], .node "class_definition" 20 30 []]

/-- C2 counterexample tree: an import statement containing a nested import
statement, and a function containing a nested function that itself contains
a further nested function. -/
def c2Inner : TSNode := .node "import_statement" 2 8 []

def c2Import : TSNode := .node "import_statement" 0 10 [c2Inner]

def c2F3 : TSNode := .node "function_definition" 28 40 []

def c2F2 : TSNode := .node "function_definition" 25 50 [c2F3]

def c2F1 : TSNode := .node "function_definition" 20 60 [c2F2]

def c2Root : TSNode := .node "module" 0 100 [c2Import, c2F1]

/-- C10 counterexample tree for the Python comment pass: a docstring-style
expression statement before an ordinary comment. -/
def pyString : TSNode := .node "string" 0 9 []

def pyComment : TSNode := .node "comment" 20 30 []

def pyRoot : TSNode :=
  .node "module" 0 40 [.node "expression_statement" 0 10 [pyString], pyComment]

/-- Source-file attributes with the defaults set by `SSSourceFile.__init__`
(import template `import ./{filename}`, separator `/`, no suffix override),
except that the separator is the Python-style `.` so that the claimed
separator rewriting would be observable. -/
def demoSF : PySF :=
  { source_code := "abcdefghij"
    basename := "name"
    filename_suffix := ".py"
    import_format := "import ./{filename}"
    import_directory_specifier := "."
    import_suffix := "" }

/-- Split-input fixture for C7: two imports and two literals. -/
def c7State : SState :=
  { initialState with
      imports := [.node "import_statement" 0 2 [], .node "import_statement" 4 6 []]
      literals := [.node "string_literal" 2 4 [], .node "string_literal" 6 8 []] }

/-- Named-unit fixture for C8: two functions whose names derive from their
first children. -/
def c8F1 : TSNode := .node "function_definition" 0 4 [.node "identifier" 0 2 []]

def c8F2 : TSNode := .node "function_definition" 5 9 [.node "identifier" 5 7 []]

/-- A file system in which the first named unit's flat-mode target already
exists. -/
def c8FS : FileSys := [("name/_ab.py", "old content")]

/-! ## Theorems -/

theorem nodeWF_se {t : String} {s e : Nat} {cs : List TSNode}
    (h : nodeWF (.node t s e cs) = true) : s ≤ e := by
  rw [nodeWF] at h
  simp only [Bool.and_eq_true, decide_eq_true_eq] at h
  exact h.1.1.1

theorem nodeWF_inRange {t : String} {s e : Nat} {cs : List TSNode}
    (h : nodeWF (.node t s e cs) = true) :
    ∀ c ∈ cs, s ≤ c.start_byte ∧ c.end_byte ≤ e := by
  rw [nodeWF] at h
  simp only [Bool.and_eq_true] at h
  have h2 := h.1.1.2
  rw [forestInRange, List.all_eq_true] at h2
  intro c hc
  have := h2 c hc
  simpa using this

theorem nodeWF_ordered {t : String} {s e : Nat} {cs : List TSNode}
    (h : nodeWF (.node t s e cs) = true) : forestOrdered cs = true := by
  rw [nodeWF] at h
  simp only [Bool.and_eq_true] at h
  exact h.1.2

theorem nodeWF_forestWF {t : String} {s e : Nat} {cs : List TSNode}
    (h : nodeWF (.node t s e cs) = true) : forestWF cs = true := by
  rw [nodeWF] at h
  simp only [Bool.and_eq_true] at h
  exact h.2

theorem nodeWF_start_le_end {x : TSNode} (h : nodeWF x = true) :
    x.start_byte ≤ x.end_byte := by
  match x with
  | .node t s e cs => simpa using nodeWF_se h

theorem forestWF_mem {cs : List TSNode} (h : forestWF cs = true) :
    ∀ c ∈ cs, nodeWF c = true := by
  induction cs with
  | nil => intro c hc; cases hc
  | cons d ds ih =>
    rw [forestWF, Bool.and_eq_true] at h
    intro c hc
    rcases List.mem_cons.mp hc with rfl | hc
    · exact h.1
    · exact ih h.2 c hc

theorem forestOrdered_head {c : TSNode} {cs : List TSNode}
    (h : forestOrdered (c :: cs) = true) :
    ∀ d ∈ cs, c.end_byte ≤ d.start_byte := by
  rw [forestOrdered, Bool.and_eq_true, List.all_eq_true] at h
  intro d hd
  simpa using h.1 d hd

theorem forestOrdered_tail {c : TSNode} {cs : List TSNode}
    (h : forestOrdered (c :: cs) = true) : forestOrdered cs = true := by
  rw [forestOrdered, Bool.and_eq_true] at h
  exact h.2

/-! ### Walk lemmas -/

mutual
theorem walkNode_matched_types (names : List String) (fo : Bool) (n : TSNode) :
    ∀ x ∈ walkNode names fo n, x.type ∈ names := by
  match n with
  | .node t s e cs =>
    intro x hx
    rw [walkNode] at hx
    by_cases h : names.contains t
    · simp only [h, if_true] at hx
      rcases List.mem_cons.mp hx with rfl | h2
      · simpa using h
      · cases fo with
        | true => simp at h2
        | false => exact walkForest_matched_types names false cs x h2
    · simp only [h, if_false] at hx
      exact walkForest_matched_types names fo cs x hx

theorem walkForest_matched_types (names : List String) (fo : Bool) (l : List TSNode) :
    ∀ x ∈ walkForest names fo l, x.type ∈ names := by
  match l with
  | [] => intro x hx; rw [walkForest] at hx; cases hx
  | c :: cs =>
    intro x hx
    rw [walkForest] at hx
    rcases List.mem_append.mp hx with h | h
    · exact walkNode_matched_types names fo c x h
    · exact walkForest_matched_types names fo cs x h
end

mutual
theorem walkNode_mem_bounds (names : List String) (fo : Bool) (n : TSNode)
    (h : nodeWF n = true) :
    ∀ x ∈ walkNode names fo n,
      nodeWF x = true ∧ n.start_byte ≤ x.start_byte ∧ x.end_byte ≤ n.end_byte := by
  match n with
  | .node t s e cs =>
    intro x hx
    rw [walkNode] at hx
    by_cases hc : names.contains t
    · simp only [hc, if_true] at hx
      rcases List.mem_cons.mp hx with rfl | h2
      · exact ⟨h, Nat.le_refl _, Nat.le_refl _⟩
      · cases fo with
        | true => simp at h2
        | false =>
          obtain ⟨c, hcm, hxwf, hx1, hx2⟩ :=
            walkForest_mem_bounds names false cs (nodeWF_forestWF h) x h2
          obtain ⟨hr1, hr2⟩ := nodeWF_inRange h c hcm
          exact ⟨hxwf, by simpa using Nat.le_trans hr1 hx1,
            by simpa using Nat.le_trans hx2 hr2⟩
    · simp only [hc, if_false] at hx
      obtain ⟨c, hcm, hxwf, hx1, hx2⟩ :=
        walkForest_mem_bounds names fo cs (nodeWF_forestWF h) x hx
      obtain ⟨hr1, hr2⟩ := nodeWF_inRange h c hcm
      exact ⟨hxwf, by simpa using Nat.le_trans hr1 hx1,
        by simpa using Nat.le_trans hx2 hr2⟩

theorem walkForest_mem_bounds (names : List String) (fo : Bool) (l : List TSNode)
    (h : forestWF l = true) :
    ∀ x ∈ walkForest names fo l,
      ∃ c ∈ l, nodeWF x = true ∧ c.start_byte ≤ x.start_byte ∧
        x.end_byte ≤ c.end_byte := by
  match l with
  | [] => intro x hx; rw [walkForest] at hx; cases hx
  | c :: cs =>
    intro x hx
    rw [forestWF, Bool.and_eq_true] at h
    rw [walkForest] at hx
    rcases List.mem_append.mp hx with h2 | h2
    · obtain ⟨hxwf, h1, h2⟩ := walkNode_mem_bounds names fo c h.1 x h2
      exact ⟨c, List.mem_cons_self c cs, hxwf, h1, h2⟩
    · obtain ⟨d, hd, rest⟩ := walkForest_mem_bounds names fo cs h.2 x h2
      exact ⟨d, List.mem_cons_of_mem c hd, rest⟩
end

mutual
theorem walkNode_true_pairwise (names : List String) (n : TSNode)
    (h : nodeWF n = true) : (walkNode names true n).Pairwise sepLE := by
  match n with
  | .node t s e cs =>
    rw [walkNode]
    by_cases hc : names.contains t
    · have ht : t ∈ names := by simpa using hc
      simp [hc, ht]
    · simp only [hc, if_false]
      exact walkForest_true_pairwise names cs (nodeWF_forestWF h) (nodeWF_ordered h)

theorem walkForest_true_pairwise (names : List String) (l : List TSNode)
    (hwf : forestWF l = true) (hord : forestOrdered l = true) :
    (walkForest names true l).Pairwise sepLE := by
  match l with
  | [] => rw [walkForest]; exact List.Pairwise.nil
  | c :: cs =>
    rw [forestWF, Bool.and_eq_true] at hwf
    rw [walkForest]
    refine List.pairwise_append.mpr
      ⟨walkNode_true_pairwise names c hwf.1,
       walkForest_true_pairwise names cs hwf.2 (forestOrdered_tail hord), ?_⟩
    intro x hx y hy
    obtain ⟨_, _, hx2⟩ := walkNode_mem_bounds names true c hwf.1 x hx
    obtain ⟨d, hd, _, hy1, _⟩ := walkForest_mem_bounds names true cs hwf.2 y hy
    have hcd := forestOrdered_head hord d hd
    exact Nat.le_trans hx2 (Nat.le_trans hcd hy1)
end

mutual
theorem walkNode_false_covered (names : List String) (n : TSNode)
    (h : nodeWF n = true) :
    ∀ x ∈ walkNode names false n,
      ∃ y ∈ walkNode names true n, is_inside x y = true := by
  match n with
  | .node t s e cs =>
    intro x hx
    rw [walkNode] at hx ⊢
    by_cases hc : names.contains t
    · simp only [hc, if_true, Bool.false_eq_true, if_false, if_true] at hx ⊢
      refine ⟨TSNode.node t s e cs, by simp, ?_⟩
      rcases List.mem_cons.mp hx with rfl | h2
      · simp [is_inside]
      · obtain ⟨c, hcm, _, hx1, hx2⟩ :=
          walkForest_mem_bounds names false cs (nodeWF_forestWF h) x h2
        obtain ⟨hr1, hr2⟩ := nodeWF_inRange h c hcm
        simp only [is_inside, Bool.and_eq_true, decide_eq_true_eq]
        exact ⟨Nat.le_trans (by simpa using hr1) hx1,
          Nat.le_trans hx2 (by simpa using hr2)⟩
    · simp only [hc, if_false] at hx ⊢
      exact walkForest_false_covered names cs (nodeWF_forestWF h) x hx

theorem walkForest_false_covered (names : List String) (l : List TSNode)
    (h : forestWF l = true) :
    ∀ x ∈ walkForest names false l,
      ∃ y ∈ walkForest names true l, is_inside x y = true := by
  match l with
  | [] => intro x hx; rw [walkForest] at hx; cases hx
  | c :: cs =>
    intro x hx
    rw [forestWF, Bool.and_eq_true] at h
    rw [walkForest] at hx
    rw [walkForest]
    rcases List.mem_append.mp hx with h2 | h2
    · obtain ⟨y, hy, hin⟩ := walkNode_false_covered names c h.1 x h2
      exact ⟨y, List.mem_append_left _ hy, hin⟩
    · obtain ⟨y, hy, hin⟩ := walkForest_false_covered names cs h.2 x h2
      exact ⟨y, List.mem_append_right _ hy, hin⟩
end

/-! ### Sorting lemmas -/

theorem mem_insertNode {x z : TSNode} {l : List TSNode} :
    z ∈ insertNode x l ↔ z = x ∨ z ∈ l := by
  induction l with
  | nil => simp [insertNode]
  | cons y ys ih =>
    rw [insertNode]
    by_cases h : x.start_byte ≤ y.start_byte
    · simp only [h, if_true]
      constructor
      · intro hz
        rcases List.mem_cons.mp hz with rfl | hz
        · exact Or.inl rfl
        · exact Or.inr hz
      · intro hz
        rcases hz with rfl | hz
        · exact List.mem_cons_self _ _
        · exact List.mem_cons_of_mem _ hz
    · simp only [h, if_false]
      constructor
      · intro hz
        rcases List.mem_cons.mp hz with rfl | hz
        · exact Or.inr (List.mem_cons_self _ _)
        · rcases ih.mp hz with h2 | h2
          · exact Or.inl h2
          · exact Or.inr (List.mem_cons_of_mem _ h2)
      · intro hz
        rcases hz with rfl | hz
        · exact List.mem_cons_of_mem _ (ih.mpr (Or.inl rfl))
        · rcases List.mem_cons.mp hz with rfl | h2
          · exact List.mem_cons_self _ _
          · exact List.mem_cons_of_mem _ (ih.mpr (Or.inr h2))

theorem mem_sort_nodes {z : TSNode} {l : List TSNode} :
    z ∈ sort_nodes l ↔ z ∈ l := by
  induction l with
  | nil => simp [sort_nodes]
  | cons x xs ih =>
    rw [sort_nodes, mem_insertNode]
    simp [ih]

theorem insertNode_pairwise_startLE {x : TSNode} {l : List TSNode}
    (h : l.Pairwise startLE) : (insertNode x l).Pairwise startLE := by
  induction l with
  | nil => simp [insertNode, startLE]
  | cons y ys ih =>
    rw [insertNode]
    rcases List.pairwise_cons.mp h with ⟨hy, hys⟩
    by_cases hxy : x.start_byte ≤ y.start_byte
    · simp only [hxy, if_true]
      refine List.pairwise_cons.mpr ⟨?_, h⟩
      intro z hz
      rcases List.mem_cons.mp hz with rfl | hz
      · exact hxy
      · exact Nat.le_trans hxy (hy z hz)
    · simp only [hxy, if_false]
      refine List.pairwise_cons.mpr ⟨?_, ih hys⟩
      intro z hz
      rcases mem_insertNode.mp hz with rfl | hz
      · exact Nat.le_of_lt (Nat.lt_of_not_le hxy)
      · exact hy z hz

theorem sort_nodes_pairwise_startLE (l : List TSNode) :
    (sort_nodes l).Pairwise startLE := by
  induction l with
  | nil => simp [sort_nodes]
  | cons x xs ih => exact insertNode_pairwise_startLE ih

theorem sort_nodes_eq_self {l : List TSNode} (h : l.Pairwise startLE) :
    sort_nodes l = l := by
  induction l with
  | nil => rfl
  | cons x xs ih =>
    rcases List.pairwise_cons.mp h with ⟨hx, hxs⟩
    rw [sort_nodes, ih hxs]
    cases xs with
    | nil => rfl
    | cons y ys =>
      rw [insertNode]
      have hxy : x.start_byte ≤ y.start_byte := hx y (List.mem_cons_self _ _)
      rw [if_pos hxy]

theorem pairwise_sepLE_startLE {l : List TSNode}
    (hwf : ∀ x ∈ l, x.start_byte ≤ x.end_byte) (h : l.Pairwise sepLE) :
    l.Pairwise startLE := by
  refine List.Pairwise.imp_of_mem ?_ h
  intro a b ha hb hab
  exact Nat.le_trans (hwf a ha) hab

theorem catInv_of_sepLE {l : List TSNode}
    (hwf : ∀ x ∈ l, x.start_byte ≤ x.end_byte) (h : l.Pairwise sepLE) :
    catInv l :=
  ⟨pairwise_sepLE_startLE hwf h, h.imp fun hab => Or.inl hab⟩

/-! ### `get_nodes` with `first_occurrence = true`: the collected nodes are
well-formed, bounded by the start node, of a matching type, and the returned
list satisfies the category invariant. -/

theorem get_nodes_true_inv (names : List String) (n : TSNode)
    (h : nodeWF n = true) :
    (get_nodes names n true).Pairwise sepLE ∧
      ∀ x ∈ get_nodes names n true,
        nodeWF x = true ∧ n.start_byte ≤ x.start_byte ∧
          x.end_byte ≤ n.end_byte ∧ x.type ∈ names := by
  match n with
  | .node t s e cs =>
    have hwalk : (walkForest names true cs).Pairwise sepLE :=
      walkForest_true_pairwise names cs (nodeWF_forestWF h) (nodeWF_ordered h)
    have hmem : ∀ x ∈ walkForest names true cs,
        nodeWF x = true ∧ s ≤ x.start_byte ∧ x.end_byte ≤ e := by
      intro x hx
      obtain ⟨c, hcm, hxwf, h1, h2⟩ :=
        walkForest_mem_bounds names true cs (nodeWF_forestWF h) x hx
      obtain ⟨hr1, hr2⟩ := nodeWF_inRange h c hcm
      exact ⟨hxwf, Nat.le_trans hr1 h1, Nat.le_trans h2 hr2⟩
    have hsorted : (walkForest names true cs).Pairwise startLE :=
      pairwise_sepLE_startLE (fun x hx => nodeWF_start_le_end (hmem x hx).1) hwalk
    have hid : get_nodes names (.node t s e cs) true = walkForest names true cs := by
      rw [get_nodes]
      exact sort_nodes_eq_self hsorted
    rw [hid]
    refine ⟨hwalk, fun x hx => ?_⟩
    obtain ⟨h1, h2, h3⟩ := hmem x hx
    exact ⟨h1, by simpa using h2, by simpa using h3,
      walkForest_matched_types names true cs x hx⟩

theorem get_nodes_true_catInv (names : List String) (n : TSNode)
    (h : nodeWF n = true) : catInv (get_nodes names n true) := by
  obtain ⟨hsep, hmem⟩ := get_nodes_true_inv names n h
  exact catInv_of_sepLE (fun x hx => nodeWF_start_le_end (hmem x hx).1) hsep

/-! ### `extract_nodes` lemmas -/

theorem extract_nodes_sublists (cs ps : List TSNode) :
    (extract_nodes cs ps).1.Sublist cs ∧ (extract_nodes cs ps).2.Sublist cs := by
  induction cs, ps using extract_nodes.induct with
  | case1 ps => simp [extract_nodes]
  | case2 cs h =>
    cases cs with
    | nil => simp [extract_nodes]
    | cons c cs => simp [extract_nodes]
  | case3 c cs p ps h ih =>
    simp only [extract_nodes, h, if_true]
    exact ⟨List.Sublist.cons₂ c ih.1, List.Sublist.cons c ih.2⟩
  | case4 c cs p ps h1 h2 ih =>
    simp only [extract_nodes, h1, if_false, if_pos h2]
    exact ih
  | case5 c cs p ps h1 h2 ih =>
    simp only [extract_nodes, h1, if_false, h2]
    exact ⟨List.Sublist.cons c ih.1, List.Sublist.cons₂ c ih.2⟩

theorem extract_nodes_filter_char (cs ps : List TSNode)
    (hsort : cs.Pairwise startLE)
    (hwf : ∀ c ∈ cs, c.start_byte ≤ c.end_byte)
    (hsep : ps.Pairwise sepLT) :
    extract_nodes cs ps =
      (cs.filter (insideSome ps), cs.filter fun c => !insideSome ps c) := by
  induction cs, ps using extract_nodes.induct with
  | case1 ps => simp [extract_nodes]
  | case2 cs h =>
    cases cs with
    | nil => simp [extract_nodes]
    | cons c cs =>
      simp only [extract_nodes]
      have : ∀ c : TSNode, insideSome [] c = false := fun c => rfl
      simp [this]
  | case3 c cs p ps h ih =>
    rcases List.pairwise_cons.mp hsort with ⟨hc, hcs⟩
    have ihr := ih hcs (fun d hd => hwf d (List.mem_cons_of_mem c hd)) hsep
    have hin : insideSome (p :: ps) c = true := by
      rw [insideSome, List.any_cons]
      simp [h]
    simp only [extract_nodes, h, if_true, ihr, List.filter_cons, hin,
      Bool.not_true, Bool.false_eq_true, if_false, if_true]
  | case4 c cs p ps h1 h2 ih =>
    rcases List.pairwise_cons.mp hsep with ⟨hp, hps⟩
    have hnone : ∀ d ∈ c :: cs, is_inside d p = false := by
      intro d hd
      have hds : c.start_byte ≤ d.start_byte := by
        rcases List.mem_cons.mp hd with rfl | hd
        · exact Nat.le_refl _
        · exact List.pairwise_cons.mp hsort |>.1 d hd
      have hde : p.end_byte < d.end_byte :=
        Nat.lt_of_lt_of_le (Nat.lt_of_lt_of_le h2 hds) (hwf d hd)
      rw [is_inside]
      simp only [Bool.and_eq_true, decide_eq_true_eq, Bool.and_eq_false_iff,
        decide_eq_false_iff_not]
      right
      omega
    have hfilter : ∀ d ∈ c :: cs, insideSome (p :: ps) d = insideSome ps d := by
      intro d hd
      rw [insideSome, List.any_cons, hnone d hd, insideSome]
      simp
    have ihr := ih hsort hwf hps
    rw [extract_nodes]
    simp only [h1, Bool.false_eq_true, if_false, if_pos h2]
    rw [ihr]
    have e1 : List.filter (insideSome (p :: ps)) (c :: cs)
        = List.filter (insideSome ps) (c :: cs) := List.filter_congr hfilter
    have e2 : List.filter (fun d => !insideSome (p :: ps) d) (c :: cs)
        = List.filter (fun d => !insideSome ps d) (c :: cs) :=
      List.filter_congr (fun d hd => by rw [hfilter d hd])
    rw [e1, e2]
  | case5 c cs p ps h1 h2 ih =>
    rcases List.pairwise_cons.mp hsort with ⟨hc, hcs⟩
    rcases List.pairwise_cons.mp hsep with ⟨hp, hps⟩
    have hin : insideSome (p :: ps) c = false := by
      rw [insideSome, List.any_cons]
      have h1f : is_inside c p = false := by
        cases hcp : is_inside c p
        · rfl
        · exact absurd hcp h1
      rw [h1f]
      simp only [Bool.false_or]
      rw [List.any_eq_false]
      intro q hq
      have hpq := hp q hq
      rw [sepLT] at hpq
      have hlt : ¬c.start_byte ≥ q.start_byte := by omega
      rw [is_inside, decide_eq_false hlt, Bool.false_and]
      simp
    have ihr := ih hcs (fun d hd => hwf d (List.mem_cons_of_mem c hd)) hsep
    rw [extract_nodes]
    simp only [h1, Bool.false_eq_true, if_false, h2, ihr, List.filter_cons, hin,
      Bool.not_false, if_true]

/-! ### Concatenated per-function sublists (the subfunction pass) -/

theorem flatMap_get_nodes_inv (names : List String) (F : List TSNode)
    (hwf : ∀ f ∈ F, nodeWF f = true) (hsep : F.Pairwise sepLE) :
    (F.flatMap fun f => get_nodes names f true).Pairwise sepLE ∧
      ∀ x ∈ F.flatMap fun f => get_nodes names f true, nodeWF x = true := by
  induction F with
  | nil => simp
  | cons f F ih =>
    rcases List.pairwise_cons.mp hsep with ⟨hf, hFs⟩
    have hfw : nodeWF f = true := hwf f (List.mem_cons_self _ _)
    obtain ⟨hsepf, hmemf⟩ := get_nodes_true_inv names f hfw
    obtain ⟨ih1, ih2⟩ := ih (fun g hg => hwf g (List.mem_cons_of_mem f hg)) hFs
    rw [List.flatMap_cons]
    constructor
    · refine List.pairwise_append.mpr ⟨hsepf, ih1, ?_⟩
      intro x hx y hy
      obtain ⟨g, hg, hyg⟩ := List.mem_flatMap.mp hy
      obtain ⟨_, hy1, _, _⟩ := (get_nodes_true_inv names g
        (hwf g (List.mem_cons_of_mem f hg))).2 y hyg
      obtain ⟨_, _, hx2, _⟩ := hmemf x hx
      exact Nat.le_trans hx2 (Nat.le_trans (hf g hg) hy1)
    · intro x hx
      rcases List.mem_append.mp hx with hx | hx
      · exact (hmemf x hx).1
      · exact ih2 x hx

/-! ### Stop-at-first characterization and pipeline run lemmas -/

theorem get_nodes_true_eq_walk (names : List String) (n : TSNode)
    (h : nodeWF n = true) :
    get_nodes names n true = walkForest names true n.children := by
  match n with
  | .node t s e cs =>
    have hwalk : (walkForest names true cs).Pairwise sepLE :=
      walkForest_true_pairwise names cs (nodeWF_forestWF h) (nodeWF_ordered h)
    have hmem : ∀ x ∈ walkForest names true cs, nodeWF x = true := by
      intro x hx
      exact (walkForest_mem_bounds names true cs (nodeWF_forestWF h) x
        hx).choose_spec.2.1
    have hsorted : (walkForest names true cs).Pairwise startLE :=
      pairwise_sepLE_startLE (fun x hx => nodeWF_start_le_end (hmem x hx)) hwalk
    rw [get_nodes]
    simp only [TSNode.children]
    exact sort_nodes_eq_self hsorted

theorem get_nodes_true_stopFirstChar (names : List String) (n : TSNode)
    (h : nodeWF n = true) :
    stopFirstChar names n (get_nodes names n true) := by
  obtain ⟨hsep, hmem⟩ := get_nodes_true_inv names n h
  refine ⟨fun x hx => (hmem x hx).2.2.2, ?_,
    (catInv_of_sepLE (fun x hx => nodeWF_start_le_end (hmem x hx).1) hsep).2⟩
  match n with
  | .node t s e cs =>
    intro x hx
    simp only [TSNode.children] at hx
    obtain ⟨y, hy, hin⟩ :=
      walkForest_false_covered names cs (nodeWF_forestWF h) x hx
    rw [get_nodes_true_eq_walk names (.node t s e cs) h]
    exact ⟨y, by simpa using hy, hin⟩

/-- Running the function-layer parse on a fresh state populates exactly the
base categories, the functions, the per-function subfunction concatenation
and the refined literals. -/
theorem function_parse_initial (root : TSNode) :
    (SSFunctionLanguageSourceFile_parse root initialState).1 =
      { imports := get_nodes TS_IMPORT_NODE_TYPES root true
        literals := (extract_nodes (get_nodes TS_LITERAL_NODE_TYPES root true)
          (get_nodes TS_FUNCTION_NODE_TYPES root true)).2
        comments := get_nodes TS_COMMENT_NODE_TYPES root true
        functions := get_nodes TS_FUNCTION_NODE_TYPES root true
        subfunctions := (get_nodes TS_FUNCTION_NODE_TYPES root true).flatMap
          fun f => get_nodes TS_FUNCTION_NODE_TYPES f true
        classes := []
        methods := []
        interfaces := [] } := by
  rw [SSFunctionLanguageSourceFile_parse]
  simp [initialState, SSSourceFile_parse]

/-- Running the class-layer parse on a fresh state. -/
theorem class_parse_initial (root : TSNode) :
    (SSClassLanguageSourceFile_parse root initialState).1 =
      { imports := get_nodes TS_IMPORT_NODE_TYPES root true
        literals := (extract_nodes
          (extract_nodes (get_nodes TS_LITERAL_NODE_TYPES root true)
            (get_nodes TS_FUNCTION_NODE_TYPES root true)).2
          (get_nodes TS_CLASS_NODE_TYPES root true)).2
        comments := get_nodes TS_COMMENT_NODE_TYPES root true
        functions := if (get_nodes TS_METHOD_NODE_TYPES root true).isEmpty
          then (extract_nodes (get_nodes TS_FUNCTION_NODE_TYPES root true)
            (get_nodes TS_CLASS_NODE_TYPES root true)).2
          else get_nodes TS_FUNCTION_NODE_TYPES root true
        subfunctions := (get_nodes TS_FUNCTION_NODE_TYPES root true).flatMap
          fun f => get_nodes TS_FUNCTION_NODE_TYPES f true
        classes := get_nodes TS_CLASS_NODE_TYPES root true
        methods := if (get_nodes TS_METHOD_NODE_TYPES root true).isEmpty
          then (extract_nodes (get_nodes TS_FUNCTION_NODE_TYPES root true)
            (get_nodes TS_CLASS_NODE_TYPES root true)).1
          else get_nodes TS_METHOD_NODE_TYPES root true
        interfaces := [] } := by
  have hguard : (!initialState.methods.isEmpty || !initialState.classes.isEmpty)
      = false := rfl
  by_cases hm : (get_nodes TS_METHOD_NODE_TYPES root true).isEmpty
  · rw [SSClassLanguageSourceFile_parse]
    simp only [hguard, Bool.false_eq_true, if_false]
    simp only [function_parse_initial root]
    simp [hm]
  · rw [SSClassLanguageSourceFile_parse]
    simp only [hguard, Bool.false_eq_true, if_false]
    simp only [function_parse_initial root]
    simp [hm]

/-- Running the interface-layer parse on a fresh state. -/
theorem interface_parse_initial (root : TSNode) :
    (SSInterfaceLanguageSourceFile_parse root initialState).1 =
      { imports := get_nodes TS_IMPORT_NODE_TYPES root true
        literals := (extract_nodes
          (extract_nodes (get_nodes TS_LITERAL_NODE_TYPES root true)
            (get_nodes TS_FUNCTION_NODE_TYPES root true)).2
          (get_nodes TS_CLASS_NODE_TYPES root true)).2
        comments := get_nodes TS_COMMENT_NODE_TYPES root true
        functions := if (get_nodes TS_METHOD_NODE_TYPES root true).isEmpty
          then (extract_nodes (get_nodes TS_FUNCTION_NODE_TYPES root true)
            (get_nodes TS_CLASS_NODE_TYPES root true)).2
          else get_nodes TS_FUNCTION_NODE_TYPES root true
        subfunctions := (get_nodes TS_FUNCTION_NODE_TYPES root true).flatMap
          fun f => get_nodes TS_FUNCTION_NODE_TYPES f true
        classes := get_nodes TS_CLASS_NODE_TYPES root true
        methods := if (get_nodes TS_METHOD_NODE_TYPES root true).isEmpty
          then (extract_nodes (get_nodes TS_FUNCTION_NODE_TYPES root true)
            (get_nodes TS_CLASS_NODE_TYPES root true)).1
          else get_nodes TS_METHOD_NODE_TYPES root true
        interfaces := get_nodes TS_INTERFACE_NODE_TYPES root true } := by
  rw [SSInterfaceLanguageSourceFile_parse]
  simp only [show (!initialState.interfaces.isEmpty) = false from rfl,
    Bool.false_eq_true, if_false, class_parse_initial root]

/-- `catInv` transfers to a sublist of a separated list of proper nodes. -/
theorem catInv_of_sublist {l l' : List TSNode} (hsub : l'.Sublist l)
    (hsep : l.Pairwise sepLE)
    (hwf : ∀ x ∈ l, x.start_byte ≤ x.end_byte) : catInv l' :=
  catInv_of_sepLE (fun x hx => hwf x (hsub.mem hx))
    (List.Pairwise.sublist hsub hsep)

/-! ## Claim theorems -/

/-- C3: on a source unit where a capability layer's own newly-introduced
category lists are already populated (non-empty), re-invoking that layer's
parse is a no-op: the state is returned unchanged with zero classifier or
partitioner invocations, so no re-classification or refinement runs and the
parent layer's parse is not re-invoked. -/
theorem layer_parse_idempotent (root : TSNode) (st : SState) :
    (st.functions ≠ [] → st.subfunctions ≠ [] →
      SSFunctionLanguageSourceFile_parse root st = (st, 0)) ∧
    (st.classes ≠ [] → st.methods ≠ [] →
      SSClassLanguageSourceFile_parse root st = (st, 0)) ∧
    (st.interfaces ≠ [] →
      SSInterfaceLanguageSourceFile_parse root st = (st, 0)) := by
  refine ⟨fun h1 h2 => ?_, fun h1 h2 => ?_, fun h1 => ?_⟩
  · rw [SSFunctionLanguageSourceFile_parse]
    cases hf : st.functions with
    | nil => exact absurd hf h1
    | cons a l => simp [hf]
  · rw [SSClassLanguageSourceFile_parse]
    cases hm : st.methods with
    | nil => exact absurd hm h2
    | cons a l => simp [hm]
  · rw [SSInterfaceLanguageSourceFile_parse]
    cases hi : st.interfaces with
    | nil => exact absurd hi h1
    | cons a l => simp [hi]

/-- Witness for C3 at a fully populated state. -/
theorem layer_parse_idempotent_witness :
    populatedState.functions ≠ [] ∧ populatedState.subfunctions ≠ [] ∧
    populatedState.classes ≠ [] ∧ populatedState.methods ≠ [] ∧
    populatedState.interfaces ≠ [] ∧
    SSFunctionLanguageSourceFile_parse c2Root populatedState
      = (populatedState, 0) ∧
    SSClassLanguageSourceFile_parse c2Root populatedState
      = (populatedState, 0) ∧
    SSInterfaceLanguageSourceFile_parse c2Root populatedState
      = (populatedState, 0) := by
  have h := layer_parse_idempotent c2Root populatedState
  refine ⟨by simp [populatedState], by simp [populatedState],
    by simp [populatedState], by simp [populatedState], by simp [populatedState],
    h.1 (by simp [populatedState]) (by simp [populatedState]),
    h.2.1 (by simp [populatedState]) (by simp [populatedState]),
    h.2.2 (by simp [populatedState])⟩

/-- C4: for a `.cpp` file whose C++ parse fails, the fallback retry under C
never reaches the parser: the fallback constructor's suffix re-check finds
`.cpp` outside C's own extension set, C names no alternate, and the
resulting `ValueError` is not caught by the inner `except SSParseFailed`,
so `get_class_for_file` surfaces `ValueError` — whatever the fallback parse
would have returned (the conclusion holds for every parser oracle) — rather
than a fallback-tagged unit on fallback success or the original
`SSParseFailed`. -/
theorem fallback_retry_raises_valueerror (parse_ok : String → Bool)
    (h : parse_ok "cpp" = false) :
    get_class_for_file parse_ok (some ".cpp") = .error .valueError ∧
      get_class_for_file parse_ok (some ".cpp") ≠ .ok "c" := by
  have h1 : get_class_for_file parse_ok (some ".cpp") = .error .valueError := by
    rw [get_class_for_file]
    simp only [show get_key_from_value (some ".cpp") = some "cpp" from rfl,
      show SSSFClassMappings_keys.contains "cpp" = true from rfl, if_true]
    rw [SSSourceFile_parse_construct]
    simp only [show ((language_entry "cpp").1.contains ".cpp") = true from rfl,
      if_true, h, Bool.false_eq_true, if_false]
    rfl
  refine ⟨h1, ?_⟩
  rw [h1]
  intro h2
  exact Except.noConfusion h2

/-- Witness for C4 at a concrete oracle under which the C++ parse fails and
the C parse would succeed. -/
theorem fallback_retry_raises_valueerror_witness :
    (fun language => language == "c") "cpp" = false ∧
    (fun language => language == "c") "c" = true ∧
    get_class_for_file (fun language => language == "c") (some ".cpp")
      = .error .valueError :=
  ⟨rfl, rfl,
   (fallback_retry_raises_valueerror (fun language => language == "c") rfl).1⟩

/-- C5: the `isinstance` ordering of `get_file_splitter` matches every
source unit (class- and interface-bearing ones included) against
`SSFunctionLanguageSourceFile` first, and the chosen splitter constructor
evaluates the never-assigned `self._sf` attribute, raising `AttributeError`;
so no splitter is ever obtained for any unit — no per-function, per-class or
per-interface file can be emitted — and independently the final step of
`SSInterfaceFileSplitter.split_file` writes the classes list, not the
interfaces list. -/
theorem splitter_dispatch_and_init_defect :
    (∀ sfl : SFLayer, isinstance_function_language sfl = true) ∧
    (∀ sfl : SFLayer, get_file_splitter sfl = .error .attributeError) ∧
    SSInterfaceFileSplitter_final_items interfaceDemoState
        ≠ interfaceDemoState.interfaces := by
  refine ⟨fun sfl => rfl, fun sfl => rfl, ?_⟩
  rw [SSInterfaceFileSplitter_final_items]
  simp [interfaceDemoState, populatedState]

/-- C6: draining the accumulated import list `["x", "p/q"]` leaves the
aggregator file holding only the rendered statement of the last path —
each loop iteration fully overwrites the file — and the text is rendered
with no separator rewriting (the descriptor's separator is `.`), rather
than the claimed concatenation of all rendered, rewritten statements. -/
theorem main_import_file_last_write_only :
    fsRead (write_main_import_file demoSF (some "out/name.py")
        ["x", "p/q"] []).1 "out/name.py" = some "import ./p/q" ∧
      ("import ./p/q" : String) ≠ "import ./x" ++ "import ./p/q" ∧
      ("import ./p/q" : String) ≠ "import ./x" ++ "import ./p.q" := by
  refine ⟨rfl, by decide, by decide⟩

/-- C7: with two import nodes (text `ab`, `ef`) and two literal nodes (text
`cd`, `gh`), the base split leaves the imports-aggregate file holding only
the last import's text and the literals-aggregate file holding only the last
literal's text — `_write_item_file` overwrites the same role path once per
node — not the claimed concatenations. -/
theorem item_file_overwrite_last_only :
    fsRead (SSFileSplitter_split_file demoSF c7State (some "out") true
        (some "out/name.py") [] []).1 "out/name/imports.py" = some "ef" ∧
      fsRead (SSFileSplitter_split_file demoSF c7State (some "out") true
        (some "out/name.py") [] []).1 "out/name/literals.py" = some "gh" ∧
      (some "ef" : Option String) ≠ some ("ab" ++ "ef") ∧
      (some "gh" : Option String) ≠ some ("cd" ++ "gh") := by
  refine ⟨rfl, rfl, by decide, by decide⟩

/-- C9 counterexample: a Python file that parses successfully reaches the
splitter constructor inside `process_file`'s `try`; the `AttributeError`
raised there is not among the caught exception classes, so the failure
escapes the batch driver instead of being logged and skipped. -/
theorem process_file_uncaught_error_cex :
    process_file (fun _ => true) (some ".py") layer_of_language
        = .error .attributeError ∧
      process_file (fun _ => true) (some ".py") layer_of_language
        ≠ .ok () := by
  have h1 : process_file (fun _ => true) (some ".py") layer_of_language
      = .error .attributeError := rfl
  refine ⟨h1, ?_⟩
  rw [h1]
  intro h
  exact Except.noConfusion h

/-- C9 amended: `process_file` absorbs exactly the failures of the classes
named in its `except` clauses (`OSError`, `SSNoLanguageFound`,
`SSParseFailed`) and continues; any error that escapes it is of an uncaught
class and is the pipeline's own error. -/
theorem process_file_catch_policy (parse_ok : String → Bool)
    (suffix : Option String) (layer_of : String → SFLayer) :
    (∀ e, per_file_pipeline parse_ok suffix layer_of = .error e →
        caught_by_process_file e = true →
        process_file parse_ok suffix layer_of = .ok ()) ∧
    (∀ e, process_file parse_ok suffix layer_of = .error e →
        caught_by_process_file e = false ∧
          per_file_pipeline parse_ok suffix layer_of = .error e) := by
  constructor
  · intro e he hc
    rw [process_file, he]
    simp [hc]
  · intro e he
    cases hp : per_file_pipeline parse_ok suffix layer_of with
    | ok k =>
      rw [process_file, hp] at he
      exact Except.noConfusion he
    | error e2 =>
      rw [process_file, hp] at he
      by_cases hc : caught_by_process_file e2 = true
      · simp [hc] at he
      · simp only [if_neg hc] at he
        have h2 : e2 = e := by
          injection he
        subst h2
        refine ⟨?_, rfl⟩
        cases h3 : caught_by_process_file e2 with
        | false => rfl
        | true => exact absurd h3 hc

/-- Witness for C9 amended: an unmapped extension is absorbed, and the
error that escapes on a parseable file is of an uncaught class. -/
theorem process_file_catch_policy_witness :
    process_file (fun _ => false) (some ".xyz") layer_of_language = .ok () ∧
    caught_by_process_file .attributeError = false := by
  constructor
  · exact (process_file_catch_policy (fun _ => false) (some ".xyz")
      layer_of_language).1 .noLanguageFound rfl rfl
  · exact ((process_file_catch_policy (fun _ => true) (some ".py")
      layer_of_language).2 .attributeError rfl).1

/-- C1 counterexample: the containers `[10,20)` and `[20,30)` are sorted
ascending and share no byte (the ranges are half-open), and the single
candidate `[20,25)` is fully inside the second container; yet the partition
returns it in `remaining` with `contained` empty, because the sweep neither
classifies it as inside the first container nor advances past that container
(`start_byte > end_byte` is strict). So `contained` is not the set of
candidates fully inside some container. -/
theorem extract_nodes_exactness_cex :
    catInv c1Cands ∧ catInv c1Conts ∧
    (∀ c ∈ c1Cands, c.start_byte ≤ c.end_byte) ∧
    (∀ c ∈ c1Conts, c.start_byte ≤ c.end_byte) ∧
    insideSome c1Conts (TSNode.node "function_definition" 20 25 []) = true ∧
    extract_nodes c1Cands c1Conts
      = ([], [TSNode.node "function_definition" 20 25 []]) ∧
    extract_nodes c1Cands c1Conts
      ≠ (c1Cands.filter (insideSome c1Conts),
         c1Cands.filter fun c => !insideSome c1Conts c) := by
  have heval : extract_nodes c1Cands c1Conts
      = ([], [TSNode.node "function_definition" 20 25 []]) := by
    simp [c1Cands, c1Conts, extract_nodes, is_inside]
  have hfil : c1Cands.filter (insideSome c1Conts)
      = [TSNode.node "function_definition" 20 25 []] := rfl
  refine ⟨by decide, by decide, by decide, by decide, rfl, heval, ?_⟩
  rw [heval]
  intro h
  have h1 := congrArg (fun pr => pr.1.length) h
  simp [hfil] at h1

/-- C1 amended: under the original hypotheses strengthened on the container
side — successive containers strictly separated, `end_byte < start_byte` of
the next — the partition is exactly the order-preserving split of the
candidates by "fully inside some container": `contained` is the filter of
the candidates inside some container, `remaining` the complementary filter,
so every candidate lands in exactly one output, both outputs preserve the
original order, and interleaving them reconstructs the candidates. -/
theorem extract_nodes_partition_exact (cands conts : List TSNode)
    (h1 : cands.Pairwise startLE) (h2 : cands.Pairwise nodesDisjoint)
    (h3 : ∀ c ∈ cands, c.start_byte ≤ c.end_byte)
    (h4 : conts.Pairwise startLE) (h5 : conts.Pairwise sepLT) :
    extract_nodes cands conts
      = (cands.filter (insideSome conts),
         cands.filter fun c => !insideSome conts c) :=
  extract_nodes_filter_char cands conts h1 h3 h5

/-- Witness for C1 amended at concrete sorted, strictly separated inputs. -/
theorem extract_nodes_partition_exact_witness :
    (w1Cands.Pairwise startLE ∧ w1Cands.Pairwise nodesDisjoint ∧
      (∀ c ∈ w1Cands, c.start_byte ≤ c.end_byte) ∧
      w1Conts.Pairwise startLE ∧ w1Conts.Pairwise sepLT) ∧
    extract_nodes w1Cands w1Conts
      = (w1Cands.filter (insideSome w1Conts),
         w1Cands.filter fun c => !insideSome w1Conts c) :=
  ⟨⟨by decide, by decide, by decide, by decide, by decide⟩,
   extract_nodes_partition_exact w1Cands w1Conts (by decide) (by decide)
     (by decide) (by decide) (by decide)⟩

/-- C8 counterexample: with two named units whose first target path already
exists, the write raises `ValueError` (there is no `UnitAlreadyExists`
class in the code) and the loop stops: the file system and import list are
returned unchanged and the second unit's file is never created — the
remaining units of the split are not emitted, contradicting the claim that
only the colliding unit's write is aborted. -/
theorem unit_exists_abort_cex :
    write_item_file demoSF (some "out") false [c8F1, c8F2] none c8FS []
        = (c8FS, [], some .valueError) ∧
      fsRead (write_item_file demoSF (some "out") false [c8F1, c8F2] none
        c8FS []).1 "name/_fg.py" = none := ⟨rfl, rfl⟩

/-- C8 amended: a named-unit write to an existing path fails with
`ValueError` and aborts that unit's write together with the remainder of
the same `_write_item_file` call (nothing later is emitted, the state is
returned as it was at the failure); role/aggregate writes (`item_name`
given) are unconditionally overwritten and never produce this error. -/
theorem write_item_file_overwrite_contract (sf : PySF) (d : String)
    (usub : Bool) (item : TSNode) (rest : List TSNode) (fs : FileSys)
    (il : List String) (nm : String)
    (hname : get_node_name sf item = some nm)
    (hex : fsExists fs (real_file_path sf d usub nm) = true) :
    write_item_file sf (some d) usub (item :: rest) none fs il
        = (fs, il, some .valueError) ∧
    ∀ (items : List TSNode) (role : String) (fs2 : FileSys)
      (il2 : List String),
      (write_item_file sf (some d) usub items (some role) fs2 il2).2.2
        = none := by
  constructor
  · rw [write_item_file, hname]
    simp only [Option.or, hex, if_true]
  · intro items role
    induction items with
    | nil => intro fs2 il2; rw [write_item_file]
    | cons it rest2 ih =>
      intro fs2 il2
      rw [write_item_file]
      exact ih _ _

/-- Witness for C8 amended. -/
theorem write_item_file_overwrite_contract_witness :
    get_node_name demoSF c8F1 = some "ab" ∧
    fsExists c8FS (real_file_path demoSF "out" false "ab") = true ∧
    write_item_file demoSF (some "out") false [c8F1, c8F2] none c8FS []
        = (c8FS, [], some .valueError) ∧
    (write_item_file demoSF (some "out") false c7State.imports
        (some "imports") [] []).2.2 = none := by
  have h := write_item_file_overwrite_contract demoSF "out" false c8F1 [c8F2]
    c8FS [] "ab" rfl rfl
  exact ⟨rfl, rfl, h.1, h.2 c7State.imports "imports" [] []⟩

/-- C2 counterexample: `parse` passes `True` for `first_occurrence`, so the
nested import statement inside another one is a matching node of the tree
that is absent from the collected imports list; likewise the
subfunction pass over the discovered function `c2F1` misses the function
nested two levels deep inside it. The classifier therefore does not collect
all matching nodes, contradicting `stop_at_first_per_branch = false`. -/
theorem classifier_collect_all_cex :
    c2Inner ∈ walkForest TS_IMPORT_NODE_TYPES false c2Root.children ∧
    c2Inner ∉ ((SSSourceFile_parse c2Root initialState).1).imports ∧
    c2F1 ∈ ((SSFunctionLanguageSourceFile_parse c2Root initialState).1).functions ∧
    c2F3 ∈ walkForest TS_FUNCTION_NODE_TYPES false c2F1.children ∧
    c2F3 ∉ ((SSFunctionLanguageSourceFile_parse c2Root initialState).1).subfunctions := by
  have e1 : walkForest TS_IMPORT_NODE_TYPES false c2Root.children
      = [c2Import, c2Inner] := rfl
  have e2 : ((SSSourceFile_parse c2Root initialState).1).imports
      = [c2Import] := rfl
  have e3 : ((SSFunctionLanguageSourceFile_parse c2Root initialState).1).functions
      = [c2F1] := rfl
  have e4 : walkForest TS_FUNCTION_NODE_TYPES false c2F1.children
      = [c2F2, c2F3] := rfl
  have e5 : ((SSFunctionLanguageSourceFile_parse c2Root initialState).1).subfunctions
      = [c2F2] := rfl
  rw [e1, e2, e3, e4, e5]
  refine ⟨by simp, ?_, by simp, by simp, ?_⟩
  · simp [c2Inner, c2Import]
  · simp [c2F3, c2F2]

/-- C2 amended: the base classifier collects imports, literals and comments
with `stop_at_first_per_branch = true`: only matching nodes are recorded,
every matching node of the tree — nested matches included — lies inside
some recorded node, and no two recorded nodes overlap, so a nested match
inside an already-matched subtree is covered by the outer match rather than
recorded separately. The subfunction pass over each discovered function node
behaves the same way: every function-typed node nested anywhere within a
discovered function is inside some collected subfunction, and the collected
subfunctions are pairwise non-overlapping (so only the outermost nested
functions are recorded). -/
theorem classifier_stop_at_first (root : TSNode) (h : nodeWF root = true) :
    stopFirstChar TS_IMPORT_NODE_TYPES root
      ((SSSourceFile_parse root initialState).1).imports ∧
    stopFirstChar TS_LITERAL_NODE_TYPES root
      ((SSSourceFile_parse root initialState).1).literals ∧
    stopFirstChar TS_COMMENT_NODE_TYPES root
      ((SSSourceFile_parse root initialState).1).comments ∧
    (∀ f ∈ ((SSFunctionLanguageSourceFile_parse root initialState).1).functions,
      ∀ x ∈ walkForest TS_FUNCTION_NODE_TYPES false f.children,
        ∃ y ∈ ((SSFunctionLanguageSourceFile_parse root
          initialState).1).subfunctions, is_inside x y = true) ∧
    ((SSFunctionLanguageSourceFile_parse root
      initialState).1).subfunctions.Pairwise nodesDisjoint := by
  have hbase : (SSSourceFile_parse root initialState).1.imports
      = get_nodes TS_IMPORT_NODE_TYPES root true := rfl
  have hbaseL : (SSSourceFile_parse root initialState).1.literals
      = get_nodes TS_LITERAL_NODE_TYPES root true := rfl
  have hbaseC : (SSSourceFile_parse root initialState).1.comments
      = get_nodes TS_COMMENT_NODE_TYPES root true := rfl
  have hrun := function_parse_initial root
  have hF := get_nodes_true_inv TS_FUNCTION_NODE_TYPES root h
  have hflat := flatMap_get_nodes_inv TS_FUNCTION_NODE_TYPES
    (get_nodes TS_FUNCTION_NODE_TYPES root true)
    (fun f hf => (hF.2 f hf).1) hF.1
  refine ⟨hbase ▸ get_nodes_true_stopFirstChar _ root h,
    hbaseL ▸ get_nodes_true_stopFirstChar _ root h,
    hbaseC ▸ get_nodes_true_stopFirstChar _ root h, ?_, ?_⟩
  · intro f hf x hx
    rw [hrun] at hf
    simp only at hf
    have hfwf : nodeWF f = true := (hF.2 f hf).1
    match f, hfwf with
    | .node t s e cs, hfwf =>
      simp only [TSNode.children] at hx
      obtain ⟨y, hy, hin⟩ :=
        walkForest_false_covered TS_FUNCTION_NODE_TYPES cs
          (nodeWF_forestWF hfwf) x hx
      refine ⟨y, ?_, hin⟩
      rw [hrun]
      simp only
      refine List.mem_flatMap.mpr ⟨.node t s e cs, hf, ?_⟩
      rw [get_nodes_true_eq_walk TS_FUNCTION_NODE_TYPES (.node t s e cs) hfwf]
      simpa using hy
  · rw [hrun]
    simp only
    exact hflat.1.imp fun hab => Or.inl hab

/-- Witness for C2 amended at the concrete tree `c2Root`. -/
theorem classifier_stop_at_first_witness :
    nodeWF c2Root = true ∧
    stopFirstChar TS_IMPORT_NODE_TYPES c2Root
      ((SSSourceFile_parse c2Root initialState).1).imports :=
  ⟨by decide, (classifier_stop_at_first c2Root (by decide)).1⟩

/-- C10 counterexample: on the Python tree `pyRoot` the full Python
constructor pipeline leaves the comments list as the classifier result with
the docstring string node appended at the end, so the list `[comment at
byte 20, string at byte 0]` is not sorted ascending by start byte: the
populated comments category violates the claimed invariant. -/
theorem python_comments_unsorted_cex :
    nodeWF pyRoot = true ∧
    ((SSPythonSourceFile_init pyRoot).1).comments = [pyComment, pyString] ∧
    ¬catInv ((SSPythonSourceFile_init pyRoot).1).comments := by
  have heval : ((SSPythonSourceFile_init pyRoot).1).comments
      = [pyComment, pyString] := rfl
  refine ⟨by decide, heval, ?_⟩
  rw [heval]
  decide

/-- C10 amended: for every well-formed tree, every category list populated
by the layer parse steps themselves (Imports, Literals, Comments, Functions,
Subfunctions, Classes, Methods, Interfaces) is sorted ascending by start
byte and pairwise non-overlapping; the exception forced by the
counterexample is the Python-specific `_extract_comments` pass, which
appends docstring nodes to the comments list without re-sorting. -/
theorem category_lists_invariant (root : TSNode) (h : nodeWF root = true) :
    catInv ((SSInterfaceLanguageSourceFile_parse root initialState).1).imports ∧
    catInv ((SSInterfaceLanguageSourceFile_parse root initialState).1).literals ∧
    catInv ((SSInterfaceLanguageSourceFile_parse root initialState).1).comments ∧
    catInv ((SSInterfaceLanguageSourceFile_parse root initialState).1).functions ∧
    catInv ((SSInterfaceLanguageSourceFile_parse root
      initialState).1).subfunctions ∧
    catInv ((SSInterfaceLanguageSourceFile_parse root initialState).1).classes ∧
    catInv ((SSInterfaceLanguageSourceFile_parse root initialState).1).methods ∧
    catInv ((SSInterfaceLanguageSourceFile_parse root
      initialState).1).interfaces := by
  have hrec := interface_parse_initial root
  obtain ⟨hLsep, hLmem⟩ := get_nodes_true_inv TS_LITERAL_NODE_TYPES root h
  obtain ⟨hFsep, hFmem⟩ := get_nodes_true_inv TS_FUNCTION_NODE_TYPES root h
  have hLwf : ∀ x ∈ get_nodes TS_LITERAL_NODE_TYPES root true,
      x.start_byte ≤ x.end_byte := fun x hx => nodeWF_start_le_end (hLmem x hx).1
  have hFwf : ∀ x ∈ get_nodes TS_FUNCTION_NODE_TYPES root true,
      x.start_byte ≤ x.end_byte := fun x hx => nodeWF_start_le_end (hFmem x hx).1
  have hsub1 := (extract_nodes_sublists (get_nodes TS_LITERAL_NODE_TYPES root true)
    (get_nodes TS_FUNCTION_NODE_TYPES root true)).2
  have hlit1sep := List.Pairwise.sublist hsub1 hLsep
  have hlit1wf : ∀ x ∈ (extract_nodes (get_nodes TS_LITERAL_NODE_TYPES root true)
      (get_nodes TS_FUNCTION_NODE_TYPES root true)).2,
      x.start_byte ≤ x.end_byte := fun x hx => hLwf x (hsub1.mem hx)
  have hflat := flatMap_get_nodes_inv TS_FUNCTION_NODE_TYPES
    (get_nodes TS_FUNCTION_NODE_TYPES root true)
    (fun f hf => (hFmem f hf).1) hFsep
  refine ⟨?_, ?_, ?_, ?_, ?_, ?_, ?_, ?_⟩ <;> rw [hrec]
  · exact get_nodes_true_catInv _ root h
  · exact catInv_of_sublist
      (extract_nodes_sublists _ (get_nodes TS_CLASS_NODE_TYPES root true)).2
      hlit1sep hlit1wf
  · exact get_nodes_true_catInv _ root h
  · by_cases hm : (get_nodes TS_METHOD_NODE_TYPES root true).isEmpty
    · simp only [hm, if_true]
      exact catInv_of_sublist
        (extract_nodes_sublists _ (get_nodes TS_CLASS_NODE_TYPES root true)).2
        hFsep hFwf
    · simp only [hm, Bool.false_eq_true, if_false]
      exact get_nodes_true_catInv _ root h
  · exact catInv_of_sepLE (fun x hx => nodeWF_start_le_end (hflat.2 x hx))
      hflat.1
  · exact get_nodes_true_catInv _ root h
  · by_cases hm : (get_nodes TS_METHOD_NODE_TYPES root true).isEmpty
    · simp only [hm, if_true]
      exact catInv_of_sublist
        (extract_nodes_sublists _ (get_nodes TS_CLASS_NODE_TYPES root true)).1
        hFsep hFwf
    · simp only [hm, Bool.false_eq_true, if_false]
      exact get_nodes_true_catInv _ root h
  · exact get_nodes_true_catInv _ root h

/-- Witness for C10 amended at the concrete tree `c2Root`. -/
theorem category_lists_invariant_witness :
    nodeWF c2Root = true ∧
    catInv ((SSInterfaceLanguageSourceFile_parse c2Root
      initialState).1).imports ∧
    catInv ((SSInterfaceLanguageSourceFile_parse c2Root
      initialState).1).subfunctions :=
  ⟨by decide, (category_lists_invariant c2Root (by decide)).1,
   (category_lists_invariant c2Root (by decide)).2.2.2.2.1⟩

end SourceSplitter
